import Mathlib

/-!
Verification development for the `tb_color` pseudocolor image pipeline
(`modules/image_processor.py`).

Images are modelled as lists of rows: a gray image holds 8-bit intensity
samples (`Nat`, with `< 256` stated as a hypothesis where the claim needs
8-bit input), a color image holds BGR triples. Scalar gains/offsets are
modelled as rationals; `cv2.convertScaleAbs` computes
`saturate_cast<uchar>(|v * alpha + beta|)` with round-half-to-even
(`cvRound`), embedded exactly below. `cv2.cvtColor(..., COLOR_BGR2GRAY)`
on 8-bit data uses the fixed-point luma
`(1868*B + 9617*G + 4899*R + 8192) >> 14`, also embedded exactly.
-/

namespace TbColor

abbrev Color := Nat × Nat × Nat

abbrev Band := Nat × Nat × Color

abbrev Scheme := List Band

abbrev GrayImage := List (List Nat)

abbrev ColorImage := List (List Color)

/-- All pixels of a gray image fit in 8 bits. -/
def GrayImage.Valid (img : GrayImage) : Prop :=
  ∀ row ∈ img, ∀ v ∈ row, v < 256

instance (img : GrayImage) : Decidable img.Valid := by
  unfold GrayImage.Valid; infer_instance

/-- OpenCV `cvRound`: round to nearest, ties to even. -/
def cvRound (q : ℚ) : ℤ :=
  if q - (⌊q⌋ : ℚ) = 1 / 2 then
    (if ⌊q⌋ % 2 = 0 then ⌊q⌋ else ⌊q⌋ + 1)
  else round q

/-- One pixel of `cv2.convertScaleAbs`:
`saturate_cast<uchar>(|v * alpha + beta|)`. -/
def convertScaleAbsPix (alpha beta : ℚ) (v : Nat) : Nat :=
  (min 255 (cvRound |(v : ℚ) * alpha + beta|)).toNat

/-- `cv2.convertScaleAbs` over a 2-D 8-bit buffer. -/
def convertScaleAbs (img : GrayImage) (alpha beta : ℚ) : GrayImage :=
  img.map (List.map (convertScaleAbsPix alpha beta))

/-- `MedicalImageProcessor.preprocess_image` on a 2-D (already gray, uint8)
buffer, for which `_to_gray` is the identity.  The CLAHE transform
(`cv2.createCLAHE(...).apply`) is an external OpenCV routine, passed in as a
parameter; the claims below only exercise `apply_clahe = false`, where it is
never consulted. -/
def preprocess_image (clahe : GrayImage → GrayImage) (image : GrayImage)
    (apply_clahe : Bool) (contrast : ℚ) (brightness : ℚ) : GrayImage :=
  let gray := image
  let gray := if apply_clahe then clahe gray else gray
  convertScaleAbs gray contrast brightness

/-- One band's masked assignment at a single pixel: the loop body
`color_img[mask] = color` restricted to one cell (`mask = lo <= v < hi`). -/
def applyBandPix (v : Nat) (c : Color) (b : Band) : Color :=
  if b.1 ≤ v ∧ v < b.2.1 then b.2.2 else c

/-- One iteration of the band loop of `enhance_pseudocolor`: write `b`'s
color into every cell of `acc` whose gray value lies in `[b.lo, b.hi)`. -/
def applyBand (gray : GrayImage) (acc : ColorImage) (b : Band) : ColorImage :=
  List.zipWith (fun grow crow =>
    List.zipWith (fun v c => applyBandPix v c b) grow crow) gray acc

/-- The band loop of `enhance_pseudocolor`, starting from the
zero-initialized 3-channel buffer `np.zeros((h, w, 3))`. -/
def colorize_with_layers (gray : GrayImage) (layers : Scheme) : ColorImage :=
  layers.foldl (applyBand gray) (gray.map (List.map (fun _ => ((0, 0, 0) : Color))))

/-- The color a single gray value ends up with after the whole band loop
(last matching band wins, black if no band matches). -/
def pixelColor (layers : Scheme) (v : Nat) : Color :=
  layers.foldl (applyBandPix v) (0, 0, 0)

/-- Modelled from the spec: the color-scheme registry `COLOR_SCHEMES` lives
in `modules/config.py`, which is absent from the sources; per the spec it is
a static mapping from scheme name to an ordered list of
`(min_inclusive, max_exclusive, color)` bands, holding at least three named
schemes, one of which ("standard") is the fallback default. The "standard"
scheme's bands below also realize the three-band demo scheme of the spec's
end-to-end scenario; the other two are arbitrary representatives. -/
def standardScheme : Scheme :=
  [(0, 100, (0, 0, 255)), (100, 200, (0, 255, 0)), (200, 256, (255, 0, 0))]

/-- Modelled from the spec: a second registry entry (contents unspecified
by the spec). -/
def rainbowScheme : Scheme :=
  [(0, 64, (255, 0, 0)), (64, 128, (255, 255, 0)), (128, 192, (0, 255, 255)),
   (192, 256, (0, 0, 255))]

/-- Modelled from the spec: a third registry entry (contents unspecified
by the spec). -/
def thermalScheme : Scheme :=
  [(0, 128, (128, 0, 0)), (128, 256, (0, 128, 255))]

/-- Modelled from the spec: the registry itself, as an association list. -/
def COLOR_SCHEMES : List (String × Scheme) :=
  [("standard", standardScheme), ("rainbow", rainbowScheme),
   ("thermal", thermalScheme)]

/-- `COLOR_SCHEMES.get(color_scheme, COLOR_SCHEMES["standard"])`: registry
lookup with silent fallback to the default scheme. -/
def lookupScheme (name : String) : Scheme :=
  (COLOR_SCHEMES.lookup name).getD standardScheme

/-- `MedicalImageProcessor.enhance_pseudocolor` on a 2-D gray buffer. -/
def enhance_pseudocolor (image : GrayImage) (color_scheme : String) : ColorImage :=
  colorize_with_layers image (lookupScheme color_scheme)

/-- One pixel of `cv2.cvtColor(..., COLOR_BGR2GRAY)` on 8-bit data:
fixed-point luma with coefficients `B2Y = 1868, G2Y = 9617, R2Y = 4899`
and descale shift 14. -/
def bgr2grayPix (c : Color) : Nat :=
  (1868 * c.1 + 9617 * c.2.1 + 4899 * c.2.2 + 8192) / 16384

/-- `_to_gray` on a 3-channel buffer. -/
def bgr2gray (img : ColorImage) : GrayImage :=
  img.map (List.map bgr2grayPix)

/-- `MedicalImageProcessor.enhance_pseudocolor` on a 3-channel buffer:
`_to_gray` converts via BGR2GRAY first. -/
def enhance_pseudocolorC (image : ColorImage) (color_scheme : String) : ColorImage :=
  colorize_with_layers (bgr2gray image) (lookupScheme color_scheme)

/-- The flat pixel buffer (`gray.flatten()`). -/
def pixels (img : GrayImage) : List Nat :=
  img.flatten

/-- `np.min(gray)` (the hypotheses of the claims keep the buffer
non-empty, where the default branch is unreachable). -/
def stats_min (img : GrayImage) : Nat :=
  match pixels img with
  | [] => 0
  | v :: vs => vs.foldl min v

/-- `np.max(gray)`. -/
def stats_max (img : GrayImage) : Nat :=
  match pixels img with
  | [] => 0
  | v :: vs => vs.foldl max v

/-- `np.mean(gray)`: the exact arithmetic mean, as a rational. -/
def stats_mean (img : GrayImage) : ℚ :=
  (((pixels img).map (fun v : Nat => (v : ℚ))).sum) / (pixels img).length

/-- `np.var(gray)` (population variance, `ddof = 0`), as a rational;
`np.std` is its square root, written `Real.sqrt (stats_var img)` in the
theorems below. -/
def stats_var (img : GrayImage) : ℚ :=
  (((pixels img).map (fun v : Nat => ((v : ℚ) - stats_mean img) ^ 2)).sum) /
    (pixels img).length

/-- The middle of an already sorted buffer: the middle element when the
count is odd, the mean of the two middle elements when even. -/
def medianOfSorted (s : List Nat) : ℚ :=
  if s.length % 2 = 1 then (s.getD (s.length / 2) 0 : ℚ)
  else ((s.getD (s.length / 2 - 1) 0 : ℚ) + (s.getD (s.length / 2) 0 : ℚ)) / 2

/-- `np.median(gray)`: sort all pixels ascending and take the exact middle
order statistic. -/
def stats_median (img : GrayImage) : ℚ :=
  medianOfSorted ((pixels img).insertionSort (· ≤ ·))

/-- `MedicalImageProcessor.compute_histogram`:
`np.bincount(gray.flatten(), minlength=256)`, which for an 8-bit buffer is
exactly 256 bins, bin `i` counting the pixels equal to `i`. -/
def compute_histogram (img : GrayImage) : List Nat :=
  (List.range 256).map (fun i => (pixels img).count i)

/-- One row of the numpy slice assignment `legend[:, lo:hi] = color`,
walking the row with its column index (`j` is the index of the head). -/
def updateRow (lo hi : Nat) (color : Color) : Nat → List Color → List Color
  | _, [] => []
  | j, c :: cs => (if lo ≤ j ∧ j < hi then color else c) :: updateRow lo hi color (j + 1) cs

/-- One iteration of the legend loop: `legend[:, lo:hi] = color`. -/
def apply_legend_band (acc : ColorImage) (b : Band) : ColorImage :=
  acc.map (updateRow b.1 b.2.1 b.2.2 0)

/-- `MedicalImageProcessor.generate_legend`: a zeroed 40x256x3 buffer, then
the band loop. -/
def generate_legend (color_scheme : String) : ColorImage :=
  (lookupScheme color_scheme).foldl apply_legend_band
    (List.replicate 40 (List.replicate 256 ((0, 0, 0) : Color)))

/-- The Python-level exceptions that flow through the module: OpenCV errors,
`ValueError`, `MemoryError`, a catch-all, and — for comparison with the
spec's claimed taxonomy — the wrapper/validation classes the spec names. -/
inductive PyErr where
  | cv2_error : String → PyErr
  | valueError : String → PyErr
  | memoryError : PyErr
  | otherError : String → PyErr
  | invalidImageError : String → PyErr
  | decodeError : String → PyErr
  | processingError : PyErr → PyErr
deriving DecidableEq

/-- `preprocess_image` with its fallible external steps made explicit
(CLAHE and `convertScaleAbs` may raise inside OpenCV). The
`except ... raise` handlers at lines 54-59 re-raise the caught exception
unchanged, which is exactly error propagation in `Except`: no wrapping, no
translation, no validation of the input buffer anywhere in the function. -/
def preprocess_imageE (clahe : GrayImage → Except PyErr GrayImage)
    (scaleAbs : GrayImage → ℚ → ℚ → Except PyErr GrayImage)
    (image : GrayImage) (apply_clahe : Bool)
    (contrast : ℚ) (brightness : ℚ) : Except PyErr GrayImage := do
  let gray := image
  let gray ← if apply_clahe then clahe gray else pure gray
  scaleAbs gray contrast brightness

/-- Following the spec's words (section 4.1): the claimed per-pixel remap
`out = clamp(round(in * contrast_gain + brightness_offset), 0, 255)`. -/
def specAffineRemap (alpha beta : ℚ) (v : Nat) : Nat :=
  (min 255 (max 0 (round ((v : ℚ) * alpha + beta)))).toNat

/-- The 2x2 demo image of the spec's end-to-end scenario. -/
def demoImg : GrayImage := [[0, 100], [150, 255]]

/-- The demo scheme of the spec's end-to-end scenario. -/
def demoScheme : Scheme :=
  [(0, 100, (0, 0, 255)), (100, 200, (0, 255, 0)), (200, 256, (255, 0, 0))]

/-- The scheme's bands are pairwise disjoint (two half-open intervals are
disjoint exactly when one ends before the other starts). -/
def SchemeDisjoint (s : Scheme) : Prop :=
  s.Pairwise (fun b b2 => min b.2.1 b2.2.1 ≤ max b.1 b2.1)

instance (s : Scheme) : Decidable (SchemeDisjoint s) := by
  unfold SchemeDisjoint; infer_instance

/-- The scheme's bands cover every 8-bit intensity. -/
def SchemeExhaustive (s : Scheme) : Prop :=
  ∀ v < 256, ∃ b ∈ s, b.1 ≤ v ∧ v < b.2.1

instance (s : Scheme) : Decidable (SchemeExhaustive s) := by
  unfold SchemeExhaustive; infer_instance

/-! ### The band loop acts pixelwise -/

lemma zipWith_map_self {α β γ : Type} (f : α → β → γ) (m : α → β) :
    ∀ (l : List α), List.zipWith f l (l.map m) = l.map (fun x => f x (m x)) := by
  intro l
  induction l with
  | nil => rfl
  | cons x xs ih => simp [ih]

lemma applyBand_map (img : GrayImage) (g : Nat → Color) (b : Band) :
    applyBand img (img.map (List.map g)) b
      = img.map (List.map (fun v => applyBandPix v (g v) b)) := by
  unfold applyBand
  rw [zipWith_map_self]
  refine List.map_congr_left (fun row _ => ?_)
  exact zipWith_map_self _ _ row

lemma foldl_applyBand (img : GrayImage) :
    ∀ (layers : Scheme) (g : Nat → Color),
      layers.foldl (applyBand img) (img.map (List.map g))
        = img.map (List.map (fun v => layers.foldl (applyBandPix v) (g v))) := by
  intro layers
  induction layers with
  | nil => intro g; rfl
  | cons b bs ih =>
      intro g
      rw [List.foldl_cons, applyBand_map, ih (fun v => applyBandPix v (g v) b)]
      simp only [List.foldl_cons]

/-- The whole band loop of `enhance_pseudocolor` computes, at each cell, the
fold of the bands over that cell's gray value. -/
lemma colorize_pointwise (img : GrayImage) (layers : Scheme) :
    colorize_with_layers img layers = img.map (List.map (pixelColor layers)) := by
  unfold colorize_with_layers pixelColor
  exact foldl_applyBand img layers (fun _ => (0, 0, 0))

/-- If no band of `s` matches `v`, the fold keeps the initial color. -/
lemma foldl_applyBandPix_of_no_match :
    ∀ (s : Scheme) (v : Nat) (init : Color),
      (∀ b ∈ s, ¬(b.1 ≤ v ∧ v < b.2.1)) →
      s.foldl (applyBandPix v) init = init := by
  intro s
  induction s with
  | nil => intro v init _; rfl
  | cons b bs ih =>
      intro v init h
      rw [List.foldl_cons]
      have hb : applyBandPix v init b = init := by
        unfold applyBandPix
        exact if_neg (h b (List.mem_cons_self b bs))
      rw [hb]
      exact ih v init (fun b2 hb2 => h b2 (List.mem_cons_of_mem b hb2))

/-- If some band of `s` matches `v`, the fold ends in some band's color
(the last matching one). -/
lemma foldl_applyBandPix_of_match :
    ∀ (s : Scheme) (v : Nat) (init : Color),
      (∃ b ∈ s, b.1 ≤ v ∧ v < b.2.1) →
      ∃ b ∈ s, s.foldl (applyBandPix v) init = b.2.2 := by
  intro s
  induction s with
  | nil => intro v init h; obtain ⟨b, hb, _⟩ := h; exact absurd hb (List.not_mem_nil b)
  | cons b bs ih =>
      intro v init h
      rw [List.foldl_cons]
      by_cases htail : ∃ b2 ∈ bs, b2.1 ≤ v ∧ v < b2.2.1
      · obtain ⟨b2, hb2, heq⟩ := ih v (applyBandPix v init b) htail
        exact ⟨b2, List.mem_cons_of_mem b hb2, heq⟩
      · have hmatch : b.1 ≤ v ∧ v < b.2.1 := by
          obtain ⟨b2, hb2, hm⟩ := h
          rcases List.mem_cons.mp hb2 with hhead | htl
          · exact hhead ▸ hm
          · exact absurd ⟨b2, htl, hm⟩ htail
        have hnone : ∀ b2 ∈ bs, ¬(b2.1 ≤ v ∧ v < b2.2.1) := by
          intro b2 hb2 hm
          exact htail ⟨b2, hb2, hm⟩
        refine ⟨b, List.mem_cons_self b bs, ?_⟩
        rw [foldl_applyBandPix_of_no_match bs v _ hnone]
        unfold applyBandPix
        exact if_pos hmatch

/-! ### Legend machinery -/

lemma updateRow_map_range' (lo hi : Nat) (col : Color) :
    ∀ (n j : Nat) (g : Nat → Color),
      updateRow lo hi col j ((List.range' j n).map g)
        = (List.range' j n).map (fun k => if lo ≤ k ∧ k < hi then col else g k) := by
  intro n
  induction n with
  | zero => intro j g; rfl
  | succ m ih =>
      intro j g
      rw [List.range'_succ]
      simp only [List.map_cons]
      rw [show updateRow lo hi col j ((g j) :: (List.range' (j + 1) m).map g)
            = (if lo ≤ j ∧ j < hi then col else g j)
              :: updateRow lo hi col (j + 1) ((List.range' (j + 1) m).map g) from rfl]
      rw [ih (j + 1) g]

lemma apply_legend_band_replicate (b : Band) (g : Nat → Color) :
    apply_legend_band (List.replicate 40 ((List.range 256).map g)) b
      = List.replicate 40
          ((List.range 256).map (fun k => applyBandPix k (g k) b)) := by
  unfold apply_legend_band applyBandPix
  rw [List.map_replicate, List.range_eq_range', updateRow_map_range']

lemma foldl_legend :
    ∀ (layers : Scheme) (g : Nat → Color),
      layers.foldl apply_legend_band (List.replicate 40 ((List.range 256).map g))
        = List.replicate 40
            ((List.range 256).map (fun k => layers.foldl (applyBandPix k) (g k))) := by
  intro layers
  induction layers with
  | nil => intro g; rfl
  | cons b bs ih =>
      intro g
      rw [List.foldl_cons, apply_legend_band_replicate, ih (fun k => applyBandPix k (g k) b)]
      simp only [List.foldl_cons]

/-! ### Claims about the band color mapper, registry fallback and legend -/

/-- C3: `enhance_pseudocolor` assigns each band's color to every pixel with
`lo <= v < hi`, later bands overwriting earlier ones; for the scheme
`[(0,256,RED), (100,150,BLUE)]` and any 8-bit gray image, every pixel with
intensity in `[100,150)` comes out BLUE and every other pixel RED. -/
theorem c3_override_order :
    ∀ (red blue : Color) (img : GrayImage), img.Valid →
      colorize_with_layers img [(0, 256, red), (100, 150, blue)]
        = img.map (List.map (fun v => if 100 ≤ v ∧ v < 150 then blue else red)) := by
  intro red blue img himg
  rw [colorize_pointwise]
  refine List.map_congr_left (fun row hrow => ?_)
  refine List.map_congr_left (fun v hv => ?_)
  have hv256 : v < 256 := himg row hrow v hv
  show applyBandPix v (applyBandPix v (0, 0, 0) (0, 256, red)) (100, 150, blue) = _
  rw [show applyBandPix v ((0, 0, 0) : Color) (0, 256, red) = red from by
    unfold applyBandPix; exact if_pos ⟨Nat.zero_le v, hv256⟩]
  rfl

/-- Witness for C3 on a concrete image and colors. -/
theorem c3_witness :
    GrayImage.Valid [[0, 120, 200], [149, 150, 255]]
    ∧ colorize_with_layers [[0, 120, 200], [149, 150, 255]]
        [(0, 256, (9, 9, 9)), (100, 150, (4, 5, 6))]
      = [[(9, 9, 9), (4, 5, 6), (9, 9, 9)], [(4, 5, 6), (9, 9, 9), (9, 9, 9)]] := by
  refine ⟨by decide, ?_⟩
  rw [c3_override_order (9, 9, 9) (4, 5, 6) [[0, 120, 200], [149, 150, 255]] (by decide)]
  decide

/-- C4: an unknown scheme name silently falls back to the default scheme, so
`enhance_pseudocolor` produces exactly the output of the name "standard";
no error is possible (the function is total). -/
theorem c4_unknown_scheme_fallback :
    ∀ (img : GrayImage) (name : String),
      COLOR_SCHEMES.lookup name = none →
      enhance_pseudocolor img name = enhance_pseudocolor img "standard" := by
  intro img name h
  unfold enhance_pseudocolor lookupScheme
  rw [h]
  rfl

/-- Witness for C4 at a concrete unknown name and image. -/
theorem c4_witness :
    COLOR_SCHEMES.lookup "nonexistent_scheme" = none
    ∧ enhance_pseudocolor [[0, 255]] "nonexistent_scheme"
        = enhance_pseudocolor [[0, 255]] "standard" :=
  ⟨by decide, c4_unknown_scheme_fallback [[0, 255]] "nonexistent_scheme" (by decide)⟩

/-- C8: the legend is exactly 40 identical rows of 256 columns, column `j`
holding the declaration-order fold of the bands at intensity `j` (bands
outside `[0,256)` are clamped away because those columns do not exist); it
depends only on the scheme name, never on an image. -/
theorem c8_legend_shape_and_content :
    ∀ (name : String),
      generate_legend name
        = List.replicate 40 ((List.range 256).map (pixelColor (lookupScheme name))) := by
  intro name
  unfold generate_legend
  rw [show (List.replicate 256 ((0, 0, 0) : Color))
        = (List.range 256).map (fun _ => ((0, 0, 0) : Color)) by
      rw [List.map_const', List.length_range]]
  exact foldl_legend (lookupScheme name) (fun _ => (0, 0, 0))

/-- C10: `generate_legend` resolves unknown names through the same silent
registry fallback as `enhance_pseudocolor`, returning the default scheme's
legend. -/
theorem c10_legend_unknown_scheme_fallback :
    ∀ (name : String),
      COLOR_SCHEMES.lookup name = none →
      generate_legend name = generate_legend "standard" := by
  intro name h
  unfold generate_legend lookupScheme
  rw [h]
  rfl

/-- Witness for C10 at a concrete unknown name. -/
theorem c10_witness :
    COLOR_SCHEMES.lookup "stale_ui_selection" = none
    ∧ generate_legend "stale_ui_selection" = generate_legend "standard" :=
  ⟨by decide, c10_legend_unknown_scheme_fallback "stale_ui_selection" (by decide)⟩

/-! ### Idempotence (C5) -/

/-- A pairwise-disjoint scheme covering all of `[0,256)` on which repeated
colorizing is NOT idempotent: the luma of white (255) lands in the second
band, which is black. -/
def c5BadScheme : Scheme := [(0, 128, (255, 255, 255)), (128, 256, (0, 0, 0))]

set_option maxRecDepth 4000 in
/-- C5 counterexample: a disjoint, exhaustive scheme and a one-pixel image
on which `colorize (colorize img) ≠ colorize img` — the second pass first
re-grays the color output (BGR2GRAY), and a band's color need not gray back
into its own band. -/
theorem c5_counterexample :
    SchemeDisjoint c5BadScheme
    ∧ SchemeExhaustive c5BadScheme
    ∧ colorize_with_layers (bgr2gray (colorize_with_layers [[0]] c5BadScheme)) c5BadScheme
        ≠ colorize_with_layers [[0]] c5BadScheme :=
  ⟨by decide, by decide, by decide⟩

/-- C5 (amended): for a pairwise-disjoint scheme covering `[0,256)` whose
band colors are stable under re-graying (the fold of the scheme at the luma
of each band's color returns that color), colorize applied twice to an
8-bit gray image equals colorize applied once. -/
theorem c5_colorize_idempotent_of_stable :
    ∀ (s : Scheme) (img : GrayImage), img.Valid →
      SchemeDisjoint s → SchemeExhaustive s →
      (∀ b ∈ s, pixelColor s (bgr2grayPix b.2.2) = b.2.2) →
      colorize_with_layers (bgr2gray (colorize_with_layers img s)) s
        = colorize_with_layers img s := by
  intro s img hval hdisj hexh hstable
  rw [colorize_pointwise img s, colorize_pointwise _ s]
  unfold bgr2gray
  simp only [List.map_map]
  refine List.map_congr_left (fun row hrow => ?_)
  simp only [Function.comp_apply, List.map_map]
  refine List.map_congr_left (fun v hv => ?_)
  simp only [Function.comp_apply]
  have hv256 : v < 256 := hval row hrow v hv
  obtain ⟨b, hb, hm⟩ := hexh v hv256
  obtain ⟨b2, hb2, heq⟩ := foldl_applyBandPix_of_match s v (0, 0, 0) ⟨b, hb, hm⟩
  have hpv : pixelColor s v = b2.2.2 := heq
  rw [hpv]
  exact hstable b2 hb2

set_option maxRecDepth 4000 in
/-- Witness for C5 (amended) on a concrete stable scheme and image. -/
theorem c5_witness :
    colorize_with_layers
        (bgr2gray (colorize_with_layers [[7]] [(0, 256, (0, 0, 0))]))
        [(0, 256, (0, 0, 0))]
      = colorize_with_layers [[7]] [(0, 256, (0, 0, 0))] :=
  c5_colorize_idempotent_of_stable [(0, 256, (0, 0, 0))] [[7]]
    (by decide) (by decide) (by decide) (by decide)

/-! ### The contrast/brightness remap (C2) -/

/-- C2 counterexample: at input pixel 0 with `contrast_gain = 1.0` and
`brightness_offset = -50`, the code (`cv2.convertScaleAbs`) produces 50
(absolute value before saturation), while the claimed formula
`clamp(round(in*gain + offset), 0, 255)` produces 0. -/
theorem c2_counterexample :
    preprocess_image id [[0]] false 1 (-50) = [[50]]
    ∧ specAffineRemap 1 (-50) 0 = 0
    ∧ (50 : Nat) ≠ 0 := by
  refine ⟨?_, ?_, by decide⟩
  · show convertScaleAbs [[0]] 1 (-50) = [[50]]
    unfold convertScaleAbs convertScaleAbsPix cvRound
    norm_num [round_eq]
    decide
  · unfold specAffineRemap
    norm_num [round_eq]

/-- C2 (amended): the contrast/brightness step applies
`saturate(|in*gain + offset|)` to every pixel — absolute value, round half
to even, saturate at 255 (no wrap-around) — which agrees with the claimed
`clamp(round(in*gain + offset), 0, 255)` whenever the affine value is
nonnegative and not an exact half-integer; in particular 250 with gain 2.0
and offset 50 saturates to 255. -/
theorem c2_remap_abs_saturate :
    ∀ (clahe : GrayImage → GrayImage) (img : GrayImage) (alpha beta : ℚ),
      preprocess_image clahe img false alpha beta
        = img.map (List.map (convertScaleAbsPix alpha beta))
      ∧ (∀ v : Nat, 0 ≤ (v : ℚ) * alpha + beta →
          (v : ℚ) * alpha + beta - (⌊(v : ℚ) * alpha + beta⌋ : ℚ) ≠ 1 / 2 →
          convertScaleAbsPix alpha beta v = specAffineRemap alpha beta v)
      ∧ preprocess_image clahe [[250]] false 2 50 = [[255]] := by
  intro clahe img alpha beta
  refine ⟨rfl, ?_, ?_⟩
  · intro v hx ht
    unfold convertScaleAbsPix specAffineRemap cvRound
    rw [abs_of_nonneg hx, if_neg ht]
    have hr : 0 ≤ round ((v : ℚ) * alpha + beta) := by
      rw [round_eq]
      exact Int.floor_nonneg.mpr (by linarith)
    rw [max_eq_right hr]
  · show convertScaleAbs [[250]] 2 50 = [[255]]
    unfold convertScaleAbs convertScaleAbsPix cvRound
    norm_num [round_eq]
    decide

/-- Witness for C2 (amended): at 250, gain 2, offset 50 the code's remap and
the claimed clamp formula coincide (both 255). -/
theorem c2_witness :
    convertScaleAbsPix 2 50 250 = specAffineRemap 2 50 250 :=
  (c2_remap_abs_saturate id [] 2 50).2.1 250 (by norm_num) (by norm_num)

/-! ### Histogram machinery (C6) -/

lemma sum_range_indicator_zero :
    ∀ (n v : Nat), n ≤ v →
      ((List.range n).map (fun i => if (v == i) = true then 1 else 0)).sum = 0 := by
  intro n
  induction n with
  | zero => intro v _; rfl
  | succ m ih =>
      intro v hv
      rw [List.range_succ, List.map_append, List.sum_append]
      rw [ih v (by omega)]
      simp
      omega

lemma sum_range_indicator_one :
    ∀ (n v : Nat), v < n →
      ((List.range n).map (fun i => if (v == i) = true then 1 else 0)).sum = 1 := by
  intro n
  induction n with
  | zero => intro v hv; omega
  | succ m ih =>
      intro v hv
      rw [List.range_succ, List.map_append, List.sum_append]
      by_cases hvm : v = m
      · rw [sum_range_indicator_zero m v (by omega)]
        simp [hvm]
      · rw [ih v (by omega)]
        simp
        exact hvm

lemma sum_range_count :
    ∀ (l : List Nat) (n : Nat), (∀ v ∈ l, v < n) →
      ((List.range n).map (fun i => l.count i)).sum = l.length := by
  intro l
  induction l with
  | nil => intro n _; simp
  | cons v vs ih =>
      intro n hn
      have hcnt : ∀ i : Nat, (v :: vs).count i
          = vs.count i + (if (v == i) = true then 1 else 0) := by
        intro i
        exact List.count_cons i v vs
      rw [List.map_congr_left (fun i _ => hcnt i), List.sum_map_add]
      rw [ih n (fun u hu => hn u (List.mem_cons_of_mem v hu))]
      rw [sum_range_indicator_one n v (hn v (List.mem_cons_self v vs))]
      simp

lemma length_pixels :
    ∀ (img : GrayImage) (w : Nat), (∀ row ∈ img, row.length = w) →
      (pixels img).length = img.length * w := by
  intro img w h
  unfold pixels
  rw [List.length_flatten, List.map_congr_left (fun row hr => h row hr),
    List.map_const', List.sum_replicate, smul_eq_mul]

/-- C6: `compute_histogram` returns 256 bins, bin `i` counting exactly the
pixels of intensity `i`, and the bins sum to `width * height`. -/
theorem c6_histogram_counts_and_sum :
    ∀ (img : GrayImage) (w h : Nat),
      img.length = h → (∀ row ∈ img, row.length = w) → img.Valid →
      (compute_histogram img).length = 256
      ∧ (∀ i, i < 256 → (compute_histogram img).getD i 0 = (pixels img).count i)
      ∧ (compute_histogram img).sum = w * h := by
  intro img w h hh hw hval
  refine ⟨by simp [compute_histogram], ?_, ?_⟩
  · intro i hi
    unfold compute_histogram
    have hlen : i < ((List.range 256).map (fun i => (pixels img).count i)).length := by
      simpa using hi
    rw [List.getD_eq_getElem _ _ hlen]
    simp
  · unfold compute_histogram
    have hvals : ∀ v ∈ pixels img, v < 256 := by
      intro v hv
      obtain ⟨row, hrow, hvr⟩ := List.mem_flatten.mp hv
      exact hval row hrow v hvr
    rw [sum_range_count (pixels img) 256 hvals, length_pixels img w hw, hh,
      Nat.mul_comm]

/-- Witness for C6 on a concrete 2x2 image. -/
theorem c6_witness :
    (compute_histogram [[3, 3], [0, 255]]).sum = 2 * 2 :=
  (c6_histogram_counts_and_sum [[3, 3], [0, 255]] 2 2
    (by decide) (by decide) (by decide)).2.2

/-! ### Statistics machinery (C7, C1) -/

lemma foldl_min_le :
    ∀ (l : List Nat) (a : Nat), l.foldl min a ≤ a ∧ ∀ v ∈ l, l.foldl min a ≤ v := by
  intro l
  induction l with
  | nil => intro a; exact ⟨le_refl a, by simp⟩
  | cons x xs ih =>
      intro a
      rw [List.foldl_cons]
      obtain ⟨h1, h2⟩ := ih (min a x)
      refine ⟨le_trans h1 (min_le_left a x), ?_⟩
      intro v hv
      rcases List.mem_cons.mp hv with rfl | hvm
      · exact le_trans h1 (min_le_right a v)
      · exact h2 v hvm

lemma le_foldl_max :
    ∀ (l : List Nat) (a : Nat), a ≤ l.foldl max a ∧ ∀ v ∈ l, v ≤ l.foldl max a := by
  intro l
  induction l with
  | nil => intro a; exact ⟨le_refl a, by simp⟩
  | cons x xs ih =>
      intro a
      rw [List.foldl_cons]
      obtain ⟨h1, h2⟩ := ih (max a x)
      refine ⟨le_trans (le_max_left a x) h1, ?_⟩
      intro v hv
      rcases List.mem_cons.mp hv with rfl | hvm
      · exact le_trans (le_max_right a v) h1
      · exact h2 v hvm

lemma stats_min_le :
    ∀ (img : GrayImage), ∀ u ∈ pixels img, stats_min img ≤ u := by
  intro img u hu
  cases hp : pixels img with
  | nil => rw [hp] at hu; exact absurd hu (List.not_mem_nil u)
  | cons v vs =>
      simp only [stats_min, hp]
      rw [hp] at hu
      rcases List.mem_cons.mp hu with rfl | hvm
      · exact (foldl_min_le vs u).1
      · exact (foldl_min_le vs v).2 u hvm

lemma le_stats_max :
    ∀ (img : GrayImage), ∀ u ∈ pixels img, u ≤ stats_max img := by
  intro img u hu
  cases hp : pixels img with
  | nil => rw [hp] at hu; exact absurd hu (List.not_mem_nil u)
  | cons v vs =>
      simp only [stats_max, hp]
      rw [hp] at hu
      rcases List.mem_cons.mp hu with rfl | hvm
      · exact (le_foldl_max vs u).1
      · exact (le_foldl_max vs v).2 u hvm

lemma le_sum_map :
    ∀ (l : List Nat) (m : Nat), (∀ v ∈ l, m ≤ v) →
      (l.length : ℚ) * m ≤ (l.map (fun v : Nat => (v : ℚ))).sum := by
  intro l
  induction l with
  | nil => intro m _; simp
  | cons x xs ih =>
      intro m h
      have hx : (m : ℚ) ≤ x := by
        exact_mod_cast h x (List.mem_cons_self x xs)
      have hxs := ih m (fun v hv => h v (List.mem_cons_of_mem x hv))
      simp only [List.map_cons, List.sum_cons, List.length_cons]
      push_cast
      linarith

lemma sum_map_le :
    ∀ (l : List Nat) (M : Nat), (∀ v ∈ l, v ≤ M) →
      (l.map (fun v : Nat => (v : ℚ))).sum ≤ (l.length : ℚ) * M := by
  intro l
  induction l with
  | nil => intro M _; simp
  | cons x xs ih =>
      intro M h
      have hx : (x : ℚ) ≤ M := by
        exact_mod_cast h x (List.mem_cons_self x xs)
      have hxs := ih M (fun v hv => h v (List.mem_cons_of_mem x hv))
      simp only [List.map_cons, List.sum_cons, List.length_cons]
      push_cast
      linarith

lemma medianOfSorted_bounds (s : List Nat) (m M : Nat) (hne : s ≠ [])
    (hlow : ∀ v ∈ s, m ≤ v) (hhigh : ∀ v ∈ s, v ≤ M) :
    (m : ℚ) ≤ medianOfSorted s ∧ medianOfSorted s ≤ M := by
  have hpos : 0 < s.length := List.length_pos.mpr hne
  unfold medianOfSorted
  split_ifs with hodd
  · have hk : s.length / 2 < s.length := Nat.div_lt_self hpos (by norm_num)
    rw [List.getD_eq_getElem _ _ hk]
    exact ⟨by exact_mod_cast hlow _ (List.getElem_mem hk),
      by exact_mod_cast hhigh _ (List.getElem_mem hk)⟩
  · have hk : s.length / 2 < s.length := Nat.div_lt_self hpos (by norm_num)
    have hk1 : s.length / 2 - 1 < s.length := lt_of_le_of_lt (Nat.sub_le _ _) hk
    rw [List.getD_eq_getElem _ _ hk1, List.getD_eq_getElem _ _ hk]
    have ha1 : (m : ℚ) ≤ s[s.length / 2 - 1] := by
      exact_mod_cast hlow _ (List.getElem_mem hk1)
    have ha2 : (s[s.length / 2 - 1] : ℚ) ≤ M := by
      exact_mod_cast hhigh _ (List.getElem_mem hk1)
    have hb1 : (m : ℚ) ≤ s[s.length / 2] := by
      exact_mod_cast hlow _ (List.getElem_mem hk)
    have hb2 : (s[s.length / 2] : ℚ) ≤ M := by
      exact_mod_cast hhigh _ (List.getElem_mem hk)
    constructor <;> linarith

/-- C7: on every non-empty image the statistics satisfy
`min <= mean <= max` and `min <= median <= max`, the median being the exact
middle order statistic of the sorted full pixel buffer. -/
theorem c7_stats_bounds :
    ∀ (img : GrayImage), pixels img ≠ [] →
      ((stats_min img : ℚ) ≤ stats_mean img ∧ stats_mean img ≤ (stats_max img : ℚ))
      ∧ ((stats_min img : ℚ) ≤ stats_median img
          ∧ stats_median img ≤ (stats_max img : ℚ)) := by
  intro img hne
  have hpos : 0 < (pixels img).length := List.length_pos.mpr hne
  have hposQ : (0 : ℚ) < (pixels img).length := by exact_mod_cast hpos
  constructor
  · unfold stats_mean
    constructor
    · rw [le_div_iff₀ hposQ]
      have h := le_sum_map (pixels img) (stats_min img) (stats_min_le img)
      linarith
    · rw [div_le_iff₀ hposQ]
      have h := sum_map_le (pixels img) (stats_max img) (le_stats_max img)
      linarith
  · unfold stats_median
    have hperm := List.perm_insertionSort (· ≤ ·) (pixels img)
    have hsne : (pixels img).insertionSort (· ≤ ·) ≠ [] := by
      intro hnil
      rw [hnil] at hperm
      exact hne (List.Perm.nil_eq hperm).symm
    refine medianOfSorted_bounds _ _ _ hsne ?_ ?_
    · intro v hv
      exact stats_min_le img v (hperm.mem_iff.mp hv)
    · intro v hv
      exact le_stats_max img v (hperm.mem_iff.mp hv)

/-- Witness for C7 on a concrete image. -/
theorem c7_witness :
    ((stats_min [[7, 3], [5, 9]] : ℚ) ≤ stats_mean [[7, 3], [5, 9]]
      ∧ stats_mean [[7, 3], [5, 9]] ≤ (stats_max [[7, 3], [5, 9]] : ℚ))
    ∧ ((stats_min [[7, 3], [5, 9]] : ℚ) ≤ stats_median [[7, 3], [5, 9]]
      ∧ stats_median [[7, 3], [5, 9]] ≤ (stats_max [[7, 3], [5, 9]] : ℚ)) :=
  c7_stats_bounds [[7, 3], [5, 9]] (by decide)

/-! ### End-to-end scenario (C1) -/

lemma stats_mean_demo : stats_mean demoImg = 505 / 4 := by
  unfold stats_mean pixels demoImg
  norm_num

lemma stats_var_demo : stats_var demoImg = 135075 / 16 := by
  unfold stats_var pixels demoImg
  rw [show stats_mean [[0, 100], [150, 255]] = 505 / 4 from stats_mean_demo]
  norm_num

lemma preprocess_demo (clahe : GrayImage → GrayImage) :
    preprocess_image clahe demoImg false 1 0 = demoImg := by
  show convertScaleAbs demoImg 1 0 = demoImg
  unfold convertScaleAbs convertScaleAbsPix cvRound demoImg
  norm_num [round_eq]
  decide

/-- C1 counterexample: the standard deviation of the demo image is not
approximately 94.8 — it is more than 2 away from it (the exact value is
`sqrt(135075/16) ≈ 91.88`). -/
theorem c1_counterexample_std :
    (2 : ℝ) < |Real.sqrt (stats_var demoImg) - 94.8| := by
  have hcast : ((stats_var demoImg : ℚ) : ℝ) = 135075 / 16 := by
    rw [stats_var_demo]
    norm_num
  have h1 : Real.sqrt ((stats_var demoImg : ℚ) : ℝ) < 92 := by
    rw [hcast]
    exact (Real.sqrt_lt' (by norm_num)).mpr (by norm_num)
  have h0 : (0 : ℝ) ≤ Real.sqrt ((stats_var demoImg : ℚ) : ℝ) := Real.sqrt_nonneg _
  rw [abs_sub_comm, abs_of_nonneg (by linarith)]
  linarith

/-- C1 (amended): on the 2x2 demo image with no equalization, gain 1.0 and
offset 0, preprocess-then-colorize with the demo scheme gives exactly the
claimed color image, and the statistics are `min = 0`, `max = 255`,
`mean = 126.25` and `std ≈ 91.9` (exactly `sqrt(135075/16) ≈ 91.88`, not
the claimed 94.8). -/
theorem c1_end_to_end :
    ∀ (clahe : GrayImage → GrayImage),
      colorize_with_layers (preprocess_image clahe demoImg false 1 0) demoScheme
        = [[(0, 0, 255), (0, 255, 0)], [(0, 255, 0), (255, 0, 0)]]
      ∧ stats_min demoImg = 0
      ∧ stats_max demoImg = 255
      ∧ stats_mean demoImg = 126.25
      ∧ |Real.sqrt (stats_var demoImg) - 91.9| < 0.1 := by
  intro clahe
  refine ⟨?_, by decide, by decide, ?_, ?_⟩
  · rw [preprocess_demo clahe]
    decide
  · rw [stats_mean_demo]
    norm_num
  · have hcast : ((stats_var demoImg : ℚ) : ℝ) = 135075 / 16 := by
      rw [stats_var_demo]
      norm_num
    have h1 : Real.sqrt ((stats_var demoImg : ℚ) : ℝ) < 91.9 := by
      rw [hcast]
      exact (Real.sqrt_lt' (by norm_num)).mpr (by norm_num)
    have h2 : (91.8 : ℝ) < Real.sqrt ((stats_var demoImg : ℚ) : ℝ) := by
      rw [hcast]
      exact (Real.lt_sqrt (by norm_num)).mpr (by norm_num)
    rw [abs_sub_lt_iff]
    constructor <;> linarith

/-! ### Error outcomes of the grayscale normalizer (C9) -/

/-- C9 counterexample: the repository defines no
`DecodeError`/`InvalidImageError`/`ProcessingError` classes at all. When the
underlying library step fails, `preprocess_image`'s `except ... raise`
handlers re-raise the caught exception unchanged, so the surfaced error is
the raw `cv2.error`, not a `ProcessingError` wrapping it; and an empty
buffer is never validated — with a non-failing conversion step the call
returns an empty image instead of raising `InvalidImageError`. -/
theorem c9_counterexample :
    preprocess_imageE (fun g => Except.ok g)
        (fun _ _ _ => Except.error (PyErr.cv2_error "conversion failed"))
        [[0]] false 1 0
      = Except.error (PyErr.cv2_error "conversion failed")
    ∧ (Except.error (PyErr.cv2_error "conversion failed") : Except PyErr GrayImage)
        ≠ Except.error (PyErr.processingError (PyErr.cv2_error "conversion failed"))
    ∧ preprocess_imageE (fun g => Except.ok g)
        (fun g a b => Except.ok (convertScaleAbs g a b)) [] false 1 0
      = Except.ok [] :=
  ⟨rfl, by simp, rfl⟩

/-- C9 (amended): `preprocess_image` performs no input validation of its own
and propagates any error of the underlying library steps unchanged — the
failure of a step is the failure of the whole call, with no wrapping and no
translation, and on any buffer (the empty one included) the outcome is
exactly the conversion step's outcome. -/
theorem c9_errors_propagate_unchanged :
    ∀ (clahe : GrayImage → Except PyErr GrayImage)
      (scaleAbs : GrayImage → ℚ → ℚ → Except PyErr GrayImage)
      (img : GrayImage) (alpha beta : ℚ) (e : PyErr),
      (clahe img = Except.error e →
        preprocess_imageE clahe scaleAbs img true alpha beta = Except.error e)
      ∧ (scaleAbs img alpha beta = Except.error e →
        preprocess_imageE clahe scaleAbs img false alpha beta = Except.error e)
      ∧ preprocess_imageE clahe scaleAbs img false alpha beta
          = scaleAbs img alpha beta := by
  intro clahe scaleAbs img alpha beta e
  refine ⟨?_, ?_, rfl⟩
  · intro h
    show (clahe img >>= fun y => scaleAbs y alpha beta) = Except.error e
    rw [h]
    rfl
  · intro h
    exact h

/-- Witness for C9 (amended) at a concrete failing conversion step. -/
theorem c9_witness :
    preprocess_imageE (fun g => Except.ok g)
        (fun _ _ _ => Except.error PyErr.memoryError) [[1]] false 1 0
      = Except.error PyErr.memoryError :=
  (c9_errors_propagate_unchanged (fun g => Except.ok g)
    (fun _ _ _ => Except.error PyErr.memoryError) [[1]] 1 0 PyErr.memoryError).2.1 rfl

end TbColor
